import Mathlib

/-!
Verification development for the chum storage load-generation tool.

The Rust sources are shallowly embedded as Lean definitions:

* machine integers (`u64`, `u32`, `usize`) become `Nat`, with overflow made
  explicit (checks against `2 ^ 64` and `2 ^ 32`) where the Rust program
  could overflow;
* fallible Rust code (`Result<T, E>`) becomes `Except`;
* randomness (`rand::thread_rng().gen_range(0, len)`) becomes an explicit
  oracle argument `r : Nat`, reduced modulo the length so any `Nat` denotes
  a valid draw;
* I/O performed by the backends (filesystem calls, HTTP requests) becomes
  explicit result parameters describing the outcome of the protocol-level
  interaction.

The file is organised as definitions first, then theorems.
-/

namespace Chum

/-! ### Queue (src/queue.rs) -/

/-- Operating modes of the queue, from `enum QueueMode` in src/queue.rs. -/
inductive QueueMode
  | lru
  | mru
  | rand
deriving DecidableEq, Repr

/-- The queue from src/queue.rs.  `QueueItem` is a single-field struct
wrapping one `String` (`pub obj: String`); we inline it, so `items` is the
`Vec<QueueItem>` with each item identified by its `obj` string.  `cap` is the
configured capacity and `mode` the selection policy. -/
structure Queue where
  items : List String
  cap : Nat
  mode : QueueMode
deriving DecidableEq, Repr

/-- Constructor `Queue::new`: empty item vector with the given mode and
capacity. -/
def Queue.new (mode : QueueMode) (cap : Nat) : Queue :=
  { items := [], cap := cap, mode := mode }

/-- Private helper `Queue::remove` from src/queue.rs: if the queue is empty
do nothing, otherwise remove the item at index 0 (Lru and Mru modes) or at a
random index (Rand mode).  The random draw `gen_range(0, len)` is the oracle
`r` reduced modulo the length. -/
def Queue.removeEffect (q : Queue) (r : Nat) : Queue :=
  if q.items.isEmpty then q
  else
    match q.mode with
    | QueueMode.lru => { q with items := q.items.eraseIdx 0 }
    | QueueMode.mru => { q with items := q.items.eraseIdx 0 }
    | QueueMode.rand =>
        { q with items := q.items.eraseIdx (r % q.items.length) }

/-- `Queue::insert` from src/queue.rs: if the current length is below the
capacity, push the item at the back; otherwise first run `remove` and then
push.  `r` is the random oracle consumed by `remove` in Rand mode. -/
def Queue.insert (q : Queue) (r : Nat) (x : String) : Queue :=
  if q.items.length < q.cap then { q with items := q.items ++ [x] }
  else
    let q' := q.removeEffect r
    { q' with items := q'.items ++ [x] }

/-- `Queue::get` from src/queue.rs: `None` on an empty queue; otherwise
index 0 in Lru mode, index `items.len()` in Mru mode (as written in the
source), and a random index in Rand mode. -/
def Queue.get (q : Queue) (r : Nat) : Option String :=
  if q.items.isEmpty then none
  else
    match q.mode with
    | QueueMode.lru => q.items.get? 0
    | QueueMode.mru => q.items.get? q.items.length
    | QueueMode.rand => q.items.get? (r % q.items.length)

/-- A sequence of `insert` calls, each with its own random oracle value,
folded over a queue. -/
def Queue.insertAll (q : Queue) (l : List (Nat × String)) : Queue :=
  l.foldl (fun acc p => acc.insert p.1 p.2) q

/-- Index selected by the taking form of `Queue::remove`.  Modelled from the
spec: the backends in src/fs.rs and src/s3.rs call a `Queue::remove` that
returns the removed entry (`take()` in the spec's terms), a later revision of
src/queue.rs that is not part of the source snapshot.  Per the spec's policy
semantics, `take()` removes the longest-resident entry (index 0) for
OldestFirst, the most-recently-inserted entry for NewestFirst, and a
uniformly random index for Uniform. -/
def Queue.takeIdx (q : Queue) (r : Nat) : Nat :=
  match q.mode with
  | QueueMode.lru => 0
  | QueueMode.mru => q.items.length - 1
  | QueueMode.rand => r % q.items.length

/-- Modelled from the spec: `take()` — the destructive form of
`Queue::remove` used by the delete paths of the backends, missing from the
snapshot's src/queue.rs (see `Queue.takeIdx`).  Removes and returns an entry
per policy, or `None` if the queue is empty. -/
def Queue.removeTake (q : Queue) (r : Nat) : Option (String × Queue) :=
  match q.items.get? (q.takeIdx r) with
  | none => none
  | some x => some (x, { q with items := q.items.eraseIdx (q.takeIdx r) })

/-! ### Worker data model

The backends in src/fs.rs, src/s3.rs and src/webdav.rs reference an
`Operation` enum, a `WorkerInfo` struct and a `ChumError` struct.
`ChumError` is defined in src/utils.rs; `Operation` and the modern
`WorkerInfo` come from a revision of src/worker.rs that is not part of the
source snapshot, so they are reconstructed from the spec ("Operation — a
fixed set of kinds: Read, Write, Delete, plus a synthetic Error kind") and
from every construction site in the snapshot. -/

/-- Operation kinds: Read, Write, Delete, plus the synthetic Error kind used
for stats bucketing of failures. -/
inductive Operation
  | read
  | write
  | delete
  | error
deriving DecidableEq, Repr

/-- Result record published by a worker for one completed operation.  The
`id: ThreadId` field of the Rust struct is omitted: it only buckets
per-thread statistics and no claim depends on it. -/
structure WorkerInfo where
  op : Operation
  size : Nat
  ttfb : Nat
  rtt : Nat
deriving DecidableEq, Repr

/-- Error wrapper `ChumError` from src/utils.rs: a message string. -/
structure ChumError where
  msg : String
deriving DecidableEq, Repr

/-- `ChumError::new` from src/utils.rs. -/
def ChumError.new (msg : String) : ChumError :=
  { msg := msg }

/-- Outcome of one libcurl transfer as observed by the WebDAV backend:
response code, accumulated body size, and the two latency figures read from
the client.  Passed as an oracle to the embedded WebDAV operations. -/
structure CurlResp where
  code : Nat
  size : Nat
  ttfb : Nat
  rtt : Nat
deriving DecidableEq, Repr

/-! ### Backends (src/fs.rs, src/s3.rs, src/webdav.rs)

Each backend operation is embedded as a pure function from the shared queue
and the oracle describing the protocol-level interaction to the returned
`Result<Option<WorkerInfo>, ChumError>` paired with the queue left behind.
Path construction that only feeds the protocol request (not the queue or the
returned value) is kept where it reaches an error message. -/

/-- Bucket/namespace constant `DIR` from src/worker.rs. -/
def DIR : String := "chum"

/-- Path construction `S3::get_path` from src/s3.rs:
`format!("v2/{}/{}/{}", DIR, first_two, fname)` where `first_two` is the
first two bytes of the file name (keys are ASCII UUIDs, so the byte slice is
the two-character prefix). -/
def S3.getPath (fname : String) : String :=
  "v2/" ++ DIR ++ "/" ++ String.mk (fname.toList.take 2) ++ "/" ++ fname

/-- `Fs::read` from src/fs.rs: sample the queue with `get`; on `None` return
`Ok(None)` (Skipped).  Otherwise open and read the file — `io` is the result
of that interaction, carrying the number of bytes read on success — and
report a Read outcome with zero ttfb and the measured `rtt`. -/
def Fs.read (q : Queue) (r : Nat) (io : Except ChumError Nat) (rtt : Nat) :
    Except ChumError (Option WorkerInfo) × Queue :=
  match q.get r with
  | none => (Except.ok none, q)
  | some _ =>
      match io with
      | Except.error e => (Except.error e, q)
      | Except.ok size =>
          (Except.ok (some (WorkerInfo.mk Operation.read size 0 rtt)), q)

/-- `Fs::delete` from src/fs.rs: take an entry with the queue's removing
`remove`; on `None` return `Ok(None)` (Skipped).  Otherwise remove the file
(`rm` is the result of `std::fs::remove_file`); on failure re-insert the
file name into the queue and return the error; on success return a Delete
outcome.  `r2` is the random oracle consumed by the re-inserting `insert`. -/
def Fs.delete (q : Queue) (r r2 : Nat) (rm : Except String Unit)
    (rtt : Nat) : Except ChumError (Option WorkerInfo) × Queue :=
  match q.removeTake r with
  | none => (Except.ok none, q)
  | some (fname, q1) =>
      match rm with
      | Except.error e =>
          (Except.error (ChumError.new
            ("Deleting " ++ fname ++ " failed: " ++ e)),
           q1.insert r2 fname)
      | Except.ok _ =>
          (Except.ok (some (WorkerInfo.mk Operation.delete 0 0 rtt)), q1)

/-- `S3::read` from src/s3.rs: sample the queue with `get`; on `None` return
`Ok(None)` (Skipped).  Otherwise issue a GetObject for the derived path —
`resp` is that interaction's result, carrying the content length on success
— and report a Read outcome with zero ttfb and the measured `rtt`. -/
def S3.read (q : Queue) (r : Nat) (resp : Except String Nat) (rtt : Nat) :
    Except ChumError (Option WorkerInfo) × Queue :=
  match q.get r with
  | none => (Except.ok none, q)
  | some fname =>
      match resp with
      | Except.error e =>
          (Except.error (ChumError.new
            ("failed to read " ++ S3.getPath fname ++ ": " ++ e)), q)
      | Except.ok size =>
          (Except.ok (some (WorkerInfo.mk Operation.read size 0 rtt)), q)

/-- `S3::delete` from src/s3.rs: take an entry with the queue's removing
`remove`; on `None` return `Ok(None)` (Skipped).  Otherwise issue a
DeleteObject (`resp` is its result); on failure re-insert the key into the
queue and return the error; on success return a Delete outcome. -/
def S3.delete (q : Queue) (r r2 : Nat) (resp : Except String Unit)
    (rtt : Nat) : Except ChumError (Option WorkerInfo) × Queue :=
  match q.removeTake r with
  | none => (Except.ok none, q)
  | some (fname, q1) =>
      match resp with
      | Except.error e =>
          (Except.error (ChumError.new
            ("Deleting " ++ S3.getPath fname ++ " failed: " ++ e)),
           q1.insert r2 fname)
      | Except.ok _ =>
          (Except.ok (some (WorkerInfo.mk Operation.delete 0 0 rtt)), q1)

/-- `WebDav::read` from src/webdav.rs: sample the queue with `get`; on
`None` return `Ok(None)` (Skipped).  Otherwise perform the GET transfer
(`resp` is its result); a 200 response yields a Read outcome with the
accumulated body size and the client's latency figures, anything else yields
an error.  The queue is never modified. -/
def WebDav.read (q : Queue) (r : Nat) (resp : Except ChumError CurlResp) :
    Except ChumError (Option WorkerInfo) × Queue :=
  match q.get r with
  | none => (Except.ok none, q)
  | some fname =>
      match resp with
      | Except.error e => (Except.error e, q)
      | Except.ok c =>
          if c.code = 200 then
            (Except.ok (some
              (WorkerInfo.mk Operation.read c.size c.ttfb c.rtt)), q)
          else
            (Except.error (ChumError.new
              ("Reading " ++ fname ++ " failed: " ++ toString c.code)), q)

/-- `WebDav::delete` from src/webdav.rs: obtain the target name by sampling
the queue with `get` (not by removing); on `None` return `Ok(None)`
(Skipped).  Otherwise perform the DELETE transfer (`resp` is its result); a
200 response yields a Delete outcome, anything else an error.  In every
branch the queue is left exactly as it was: the key is never removed, even
when the deletion succeeds. -/
def WebDav.delete (q : Queue) (r : Nat) (resp : Except ChumError CurlResp) :
    Except ChumError (Option WorkerInfo) × Queue :=
  match q.get r with
  | none => (Except.ok none, q)
  | some fname =>
      match resp with
      | Except.error e => (Except.error e, q)
      | Except.ok c =>
          if c.code = 200 then
            (Except.ok (some
              (WorkerInfo.mk Operation.delete 0 c.ttfb c.rtt)), q)
          else
            (Except.error (ChumError.new
              ("Deleting " ++ fname ++ " failed: " ++ toString c.code)), q)

/-! ### Stats collection (src/utils.rs, `collect_stats`) -/

/-- Conversion applied by the drain loop of `collect_stats` in src/utils.rs:
an `Ok` result is the worker's record unchanged; an `Err` becomes a
synthetic record with the Error operation and zero size (the Rust code also
attaches the collector's own thread id, omitted with the rest of the id
field). -/
def drainedInfo : Except ChumError WorkerInfo → WorkerInfo
  | Except.ok wi => wi
  | Except.error _ => WorkerInfo.mk Operation.error 0 0 0

/-- One drain pass of `collect_stats` threaded through the cumulative
written-byte counter: for each result received during the tick, add
`wr.size` to the total exactly when `wr.op == Operation::Write`.  The three
statistics maps the loop also updates only feed the printed report and are
omitted. -/
def drainBatch (total : Nat)
    (batch : List (Except ChumError WorkerInfo)) : Nat :=
  batch.foldl
    (fun t res =>
      let wr := drainedInfo res
      if wr.op = Operation.write then t + wr.size else t)
    total

/-- Termination behaviour of the `collect_stats` loop from src/utils.rs over
a finite schedule of ticks.  `ticks` lists, for each interval wake-up, the
results drained during that tick.  The result is the index of the tick at
whose end the loop returns — the check is
`data_cap > 0 && total_bytes_written >= data_cap`, evaluated after draining
and printing — or `none` if the loop is still running after all the listed
ticks. -/
def collectStats (dataCap total : Nat) :
    List (List (Except ChumError WorkerInfo)) → Option Nat
  | [] => none
  | batch :: rest =>
      if 0 < dataCap ∧ dataCap ≤ drainBatch total batch then some 0
      else (collectStats dataCap (drainBatch total batch) rest).map (· + 1)

/-- Cumulative written bytes accumulated by the collector over a sequence of
ticks, starting from zero. -/
def cumWritten (ticks : List (List (Except ChumError WorkerInfo))) : Nat :=
  ticks.foldl drainBatch 0

/-! ### Human-size parsing (src/utils.rs, `parse_human`) -/

/-- Outcome of running a fallible Rust function compiled in the debug
profile: return `Ok`, return `Err`, or panic (here only ever from the
checked `u64` multiplication overflowing). -/
inductive RustOutcome (α : Type) (ε : Type)
  | ok (v : α)
  | err (e : ε)
  | panicked (msg : String)
deriving DecidableEq, Repr

/-- Truth of `RustOutcome` being the `Err` form. -/
def RustOutcome.isErr {α ε : Type} : RustOutcome α ε → Bool
  | RustOutcome.err _ => true
  | _ => false

/-- Characters accepted by the unit class `[KMGTkmgt]` of the regex in
`parse_human`. -/
def unitChars : List Char :=
  ['K', 'M', 'G', 'T', 'k', 'm', 'g', 't']

/-- Test of the regex `^\d+[KMGTkmgt]$` used by `parse_human`: one or more
digits followed by exactly one unit character.  `\d` is modelled as the
ASCII digits; a non-ASCII digit accepted by the Unicode-aware regex would
fail the subsequent `u64` parse and produce an error anyway, so error-ness
of non-ASCII inputs is unaffected. -/
def humanRegexMatch (val : String) : Bool :=
  decide (2 ≤ val.toList.length) && val.toList.dropLast.all Char.isDigit &&
    (match val.toList.getLast? with
     | some c => unitChars.contains c
     | none => false)

/-- Numeric value of a digit string, most significant digit first. -/
def digitsVal (cs : List Char) : Nat :=
  cs.foldl (fun acc c => acc * 10 + (c.toNat - '0'.toNat)) 0

/-- Model of `u64::from_str_radix(s, 10)`: the numeric value of a nonempty
all-digit string when it fits in 64 bits, `none` (a parse error) on
overflow or any other shape. -/
def parseU64 (cs : List Char) : Option Nat :=
  if cs ≠ [] ∧ cs.all Char.isDigit then
    if digitsVal cs < 2 ^ 64 then some (digitsVal cs) else none
  else none

/-- Checked `u64` multiplication as compiled in the debug profile: the
product when it fits in 64 bits, otherwise a panic with the overflow
message — the behaviour pinned by the repository's own
`test_parse_human_panic` unit test. -/
def u64Mul (a b : Nat) : RustOutcome Nat ChumError :=
  if a * b < 2 ^ 64 then RustOutcome.ok (a * b)
  else RustOutcome.panicked "attempt to multiply with overflow"

/-- `parse_human` from src/utils.rs.  `"0"` parses to 0.  Otherwise the
value must match `^\d+[KMGTkmgt]$`; it is split before its final character,
the digit prefix is parsed as a `u64` (a failed parse — only possible here
as overflow — is mapped into a `ChumError` carrying the library's message),
and the result is multiplied by the unit multiplier (k = 1024,
m = 1024 * 1024, and so on) selected by the lowercased suffix.  Values of
any other shape are an error.  The regex guarantees ASCII, so the Rust byte
split agrees with the character split used here. -/
def parse_human (val : String) : RustOutcome Nat ChumError :=
  let k := 1024
  let m := k * 1024
  let g := m * 1024
  let t := g * 1024
  if val = "0" then RustOutcome.ok 0
  else if humanRegexMatch val then
    match parseU64 val.toList.dropLast with
    | none =>
        RustOutcome.err (ChumError.new
          "number too large to fit in target type")
    | some n =>
        match (val.toList.getLastD ' ').toLower with
        | 'k' => u64Mul n k
        | 'm' => u64Mul n m
        | 'g' => u64Mul n g
        | 't' => u64Mul n t
        | _ => RustOutcome.err (ChumError.new "unrecognized unit suffix")
  else
    RustOutcome.err (ChumError.new
      "provided value must be a positive number with a unit suffix")

/-- The spec's description of a well-formed size token, written from the
spec's words for comparison with the code's regex: an unsigned integer (one
or more ASCII digits) followed by one unit suffix among k, m, g, t in
either case. -/
def specHumanForm (val : String) : Prop :=
  ∃ (ds : List Char) (u : Char),
    val.toList = ds ++ [u] ∧ ds ≠ [] ∧ (∀ c ∈ ds, c.isDigit) ∧ u ∈ unitChars

/-! ### Workload expansion (src/utils.rs, `expand_distribution`) -/

/-- Splitting on a separator character, with the semantics of Rust's
`str::split(char)`: the list of (possibly empty) chunks between
separators; the empty string yields one empty chunk. -/
def splitOnChar (sep : Char) : List Char → List (List Char)
  | [] => [[]]
  | c :: rest =>
      if c = sep then [] :: splitOnChar sep rest
      else
        match splitOnChar sep rest with
        | [] => [[c]]
        | g :: gs => (c :: g) :: gs

/-- Model of `tok[1].parse::<u32>()`: the numeric value of a nonempty
all-digit string when it fits in 32 bits, `none` otherwise.  (The Rust
parser also accepts a leading `+`; no configuration token uses one and the
claims only involve plain digit weights.) -/
def parseU32 (cs : List Char) : Option Nat :=
  if cs ≠ [] ∧ cs.all Char.isDigit then
    if digitsVal cs < 2 ^ 32 then some (digitsVal cs) else none
  else none

/-- Expansion of one comma-separated token by `expand_distribution` in
src/utils.rs: split on `:`; a single part is pushed once; two parts push
the left part `W` times where `W` is the parsed right part (a parse failure
is an error); three or more parts are an error. -/
def expandTok (s : List Char) : Except ChumError (List String) :=
  match splitOnChar ':' s with
  | [t0] => Except.ok [String.mk t0]
  | [t0, t1] =>
      match parseU32 t1 with
      | some w => Except.ok (List.replicate w (String.mk t0))
      | none =>
          Except.error (ChumError.new
            ("failed to parse '" ++ String.mk t1 ++ "' as a number"))
  | tok =>
      Except.error (ChumError.new
        ("too many multiples in token '" ++
          String.intercalate ":" (tok.map String.mk) ++ "'"))

/-- Left-to-right expansion of the comma-separated token list inside
`expand_distribution`: each token's expansion is appended in order, and the
first failing token aborts with its error (the `?` operator in Rust). -/
def expandAll : List (List Char) → Except ChumError (List String)
  | [] => Except.ok []
  | s :: rest =>
      match expandTok s with
      | Except.error e => Except.error e
      | Except.ok cur =>
          match expandAll rest with
          | Except.error e => Except.error e
          | Except.ok more => Except.ok (cur ++ more)

/-- `expand_distribution` from src/utils.rs: split the input on commas and
expand each token in order, concatenating the results. -/
def expand_distribution (dstr : String) : Except ChumError (List String) :=
  expandAll (splitOnChar ',' dstr.toList)

/-- The spec's per-token expansion rule, written from the spec's words for
comparison with the code: a token `N:W` yields `W` consecutive copies of
`N`, a token without a `:W` suffix yields exactly one copy of itself, and
anything else (no parseable weight, more than one colon) is not covered by
the rule. -/
def specTokenExpansion (t : List Char) : Option (List String) :=
  match splitOnChar ':' t with
  | [n] => some [String.mk n]
  | [n, w] => (parseU32 w).map (fun k => List.replicate k (String.mk n))
  | _ => none

/-! ### Write payload assembly (src/fs.rs, src/s3.rs, src/writer.rs) -/

/-- Pre-generated 65536-byte data buffer shared by every write path (filled
with random bytes in Rust; only its length matters here, so its contents
are modelled as zeros). -/
def chumBuf : List UInt8 := List.replicate 65536 0

/-- The payload-assembly loop shared verbatim by `Fs::write` (src/fs.rs),
`S3::write` (src/s3.rs) and `Writer::s3_upload` / `Writer::fs_write`
(src/writer.rs): starting from `bytes_to_go = size`, append the whole
buffer while at least a full buffer's worth remains, and finish a partial
chunk with the slice `&self.buf[0..(bytes_to_go - 1)]` — the slice end is
exclusive, so this takes `bytes_to_go - 1` bytes — before breaking.  (With
an empty buffer the Rust loop would spin forever; the buffer is always
65536 bytes, and the model returns the accumulator in that unreachable case
to stay total.) -/
def writePayloadLoop (buf acc : List UInt8) (bytesToGo : Nat) :
    List UInt8 :=
  if bytesToGo = 0 then acc
  else if bytesToGo < buf.length then acc ++ buf.take (bytesToGo - 1)
  else if buf.length = 0 then acc
  else writePayloadLoop buf (acc ++ buf) (bytesToGo - buf.length)
termination_by bytesToGo
decreasing_by omega

/-- Payload assembled for one write of the chosen `size`. -/
def writePayload (buf : List UInt8) (size : Nat) : List UInt8 :=
  writePayloadLoop buf [] size

/-! ### Theorems -/

theorem Queue.removeEffect_cap (q : Queue) (r : Nat) :
    (q.removeEffect r).cap = q.cap := by
  unfold Queue.removeEffect
  split
  · rfl
  · cases q.mode <;> rfl

theorem Queue.removeEffect_length (q : Queue) (r : Nat)
    (h : q.items ≠ []) :
    (q.removeEffect r).items.length + 1 = q.items.length := by
  have hne : q.items.isEmpty = false := by
    cases hq : q.items with
    | nil => exact absurd hq h
    | cons a t => rfl
  have hpos : 0 < q.items.length := List.length_pos.mpr h
  unfold Queue.removeEffect
  rw [hne]
  simp only [Bool.false_eq_true, if_false]
  cases q.mode with
  | lru => simpa using List.length_eraseIdx_add_one hpos
  | mru => simpa using List.length_eraseIdx_add_one hpos
  | rand =>
      simpa using List.length_eraseIdx_add_one (Nat.mod_lt _ hpos)

theorem Queue.insert_cap (q : Queue) (r : Nat) (x : String) :
    (q.insert r x).cap = q.cap := by
  unfold Queue.insert
  split
  · rfl
  · simpa using q.removeEffect_cap r

/-- Length effect of a single insert on a queue that is below capacity. -/
theorem Queue.insert_length_below (q : Queue) (r : Nat) (x : String)
    (h : q.items.length < q.cap) :
    (q.insert r x).items.length = q.items.length + 1 := by
  unfold Queue.insert
  rw [if_pos h]
  simp

/-- Length effect of a single insert on a nonempty queue that is at or above
capacity: the length is unchanged (one item is evicted, one is pushed). -/
theorem Queue.insert_length_at_cap (q : Queue) (r : Nat) (x : String)
    (hge : ¬ q.items.length < q.cap) (hne : q.items ≠ []) :
    (q.insert r x).items.length = q.items.length := by
  unfold Queue.insert
  rw [if_neg hge]
  have := q.removeEffect_length r hne
  simp only [List.length_append, List.length_cons, List.length_nil]
  omega

/-- Claim C1 counterexample: with configured capacity 0, a single `insert`
into a fresh queue leaves one item in the queue, so the length exceeds the
capacity and the queue's length changed even though it was already at
capacity (0 = 0). -/
theorem insert_exceeds_zero_capacity :
    ((Queue.new QueueMode.lru 0).insert 0 "a").items.length = 1 ∧
    (Queue.new QueueMode.lru 0).cap = 0 ∧
    (Queue.new QueueMode.lru 0).cap <
      ((Queue.new QueueMode.lru 0).insert 0 "a").items.length :=
  ⟨rfl, rfl, by decide⟩

/-- Claim C1 (amended to positive capacity): for every mode and capacity
`cap ≥ 1`, (a) after any finite sequence of `insert` calls on a fresh queue
the length is at most `cap` (every prefix of a longer run is itself such a
sequence, so this bounds the length after each insert); (b) a single insert
on a queue at capacity leaves the length unchanged; (c) a single insert on a
queue below capacity increases the length by exactly one. -/
theorem queue_capacity_invariant (mode : QueueMode) (cap : Nat)
    (hcap : 1 ≤ cap) :
    (∀ l : List (Nat × String),
      ((Queue.new mode cap).insertAll l).items.length ≤ cap) ∧
    (∀ (q : Queue) (r : Nat) (x : String), q.cap = cap →
      q.items.length = cap → (q.insert r x).items.length = q.items.length) ∧
    (∀ (q : Queue) (r : Nat) (x : String),
      q.items.length < q.cap →
      (q.insert r x).items.length = q.items.length + 1) := by
  have hat : ∀ (q : Queue) (r : Nat) (x : String), q.cap = cap →
      q.items.length = cap → (q.insert r x).items.length = q.items.length := by
    intro q r x hqc hlen
    have hge : ¬ q.items.length < q.cap := by omega
    have hne : q.items ≠ [] := by
      intro hnil
      rw [hnil] at hlen
      simp at hlen
      omega
    exact q.insert_length_at_cap r x hge hne
  refine ⟨?_, hat, fun q r x h => q.insert_length_below r x h⟩
  intro l
  suffices h : ∀ (l : List (Nat × String)) (q : Queue), q.cap = cap →
      q.items.length ≤ cap → ((q.insertAll l).items.length ≤ cap) by
    exact h l (Queue.new mode cap) rfl (by simp [Queue.new])
  intro l
  induction l with
  | nil => intro q hqc hlen; simpa [Queue.insertAll] using hlen
  | cons p t ih =>
      intro q hqc hlen
      have step : (q.insert p.1 p.2).items.length ≤ cap := by
        by_cases hlt : q.items.length < q.cap
        · rw [q.insert_length_below p.1 p.2 hlt]; omega
        · rw [hat q p.1 p.2 hqc (by omega)]; omega
      have hcap' : (q.insert p.1 p.2).cap = cap := by
        rw [q.insert_cap p.1 p.2]; exact hqc
      have : (Queue.insertAll (q.insert p.1 p.2) t).items.length ≤ cap :=
        ih (q.insert p.1 p.2) hcap' step
      simpa [Queue.insertAll] using this

/-- Witness for `queue_capacity_invariant` at mode Lru and capacity 1. -/
theorem queue_capacity_invariant_witness :
    1 ≤ 1 ∧
    ((∀ l : List (Nat × String),
      ((Queue.new QueueMode.lru 1).insertAll l).items.length ≤ 1) ∧
    (∀ (q : Queue) (r : Nat) (x : String), q.cap = 1 →
      q.items.length = 1 → (q.insert r x).items.length = q.items.length) ∧
    (∀ (q : Queue) (r : Nat) (x : String),
      q.items.length < q.cap →
      (q.insert r x).items.length = q.items.length + 1)) :=
  ⟨by decide, queue_capacity_invariant QueueMode.lru 1 (by decide)⟩

/-- Claim C4: as written in src/queue.rs, `Queue::get` in Mru mode indexes
`self.items.get(self.items.len())`, which is one past the last element, so
`get` returns `None` on every Mru-mode queue — including every non-empty
one.  In particular the failing input with items `["a"]` returns `None`. -/
theorem mru_get_always_none (items : List String) (cap r : Nat) :
    (Queue.mk items cap QueueMode.mru).get r = none := by
  unfold Queue.get
  by_cases h : items.isEmpty
  · simp [h]
  · simp only [h, Bool.false_eq_true, if_false]
    exact List.get?_eq_none.mpr (Nat.le_refl _)

theorem Queue.removeTake_elim (q : Queue) (r : Nat) (k : String)
    (q1 : Queue) (h : q.removeTake r = some (k, q1)) :
    q.takeIdx r < q.items.length ∧
    q.items.get? (q.takeIdx r) = some k ∧
    q1.items = q.items.eraseIdx (q.takeIdx r) ∧
    q1.cap = q.cap ∧ q1.mode = q.mode := by
  unfold Queue.removeTake at h
  cases hg : q.items.get? (q.takeIdx r) with
  | none => rw [hg] at h; exact absurd h (by simp)
  | some x =>
      rw [hg] at h
      simp only [Option.some.injEq, Prod.mk.injEq] at h
      obtain ⟨hx, hq⟩ := h
      subst hx
      subst hq
      have hlt : q.takeIdx r < q.items.length := by
        obtain ⟨hl, -⟩ := List.get?_eq_some.mp hg
        exact hl
      exact ⟨hlt, rfl, rfl, rfl, rfl⟩

/-- Decomposition of a list at an index known to hold `k`. -/
theorem list_decomp_of_get? {l : List String} {i : Nat} {k : String}
    (h : l.get? i = some k) :
    l = l.take i ++ k :: l.drop (i + 1) ∧
    l.eraseIdx i = l.take i ++ l.drop (i + 1) := by
  have hi : i < l.length := by
    by_contra hge
    rw [List.get?_eq_none.mpr (Nat.le_of_not_lt hge)] at h
    exact absurd h (by simp)
  have hk : l[i] = k := by
    rw [List.get?_eq_get hi] at h
    simpa [List.get_eq_getElem] using h
  constructor
  · conv_lhs => rw [← List.take_append_drop i l]
    rw [List.drop_eq_getElem_cons hi, hk]
  · exact List.eraseIdx_eq_take_drop_succ l i

/-- Removing the entry at a known index and appending it back yields a
permutation of the original list that still contains the entry. -/
theorem eraseIdx_append_perm {l : List String} {i : Nat} {k : String}
    (h : l.get? i = some k) :
    (l.eraseIdx i ++ [k]).Perm l ∧ k ∈ l.eraseIdx i ++ [k] := by
  obtain ⟨hdec, herase⟩ := list_decomp_of_get? h
  refine ⟨?_, by simp⟩
  rw [herase]
  have h1 : ((l.take i ++ l.drop (i + 1)) ++ [k]).Perm
      (k :: (l.take i ++ l.drop (i + 1))) := List.perm_append_singleton k _
  have h2 : (k :: (l.take i ++ l.drop (i + 1))).Perm
      (l.take i ++ k :: l.drop (i + 1)) := List.perm_middle.symm
  have h3 := h1.trans h2
  rw [← hdec] at h3
  exact h3

/-- Counting occurrences after a `removeTake`: exactly one occurrence of the
taken key is gone, and the length drops by one. -/
theorem Queue.removeTake_count (q : Queue) (r : Nat) (k : String)
    (q1 : Queue) (h : q.removeTake r = some (k, q1)) :
    q1.items.count k + 1 = q.items.count k ∧
    q1.items.length + 1 = q.items.length := by
  obtain ⟨hi, hg, hitems, _, _⟩ := q.removeTake_elim r k q1 h
  obtain ⟨hdec, herase⟩ := list_decomp_of_get? hg
  constructor
  · rw [hitems, herase]
    conv_rhs => rw [hdec]
    simp only [List.count_append, List.count_cons_self]
    omega
  · rw [hitems]
    exact List.length_eraseIdx_add_one hi

/-- After `removeTake` succeeds on a queue whose length is within its
capacity, the remainder is strictly below capacity, so a subsequent `insert`
appends without evicting. -/
theorem Queue.removeTake_insert_append (q : Queue) (r r2 : Nat)
    (k : String) (q1 : Queue) (hcap : q.items.length ≤ q.cap)
    (h : q.removeTake r = some (k, q1)) :
    (q1.insert r2 k).items = q1.items ++ [k] := by
  obtain ⟨hi, _, hitems, hc, _⟩ := q.removeTake_elim r k q1 h
  obtain ⟨_, hlen⟩ := q.removeTake_count r k q1 h
  have hlt : q1.items.length < q1.cap := by
    rw [hc]; omega
  unfold Queue.insert
  rw [if_pos hlt]

/-- Claim C3: if the taking `remove` extracts key `k` from the queue and the
protocol-level deletion then fails, both `Fs::delete` and `S3::delete`
re-insert `k` into the queue (appending it, since the queue is below
capacity after the removal) before returning the `Failed` outcome; the
resulting item list is a permutation of the original queue's items — the
key-multiset is unchanged — and `k` is present in it, hence again
retrievable. -/
theorem delete_failure_requeues (q : Queue) (r r2 rtt : Nat) (e : String)
    (k : String) (q1 : Queue) (hcap : q.items.length ≤ q.cap)
    (h : q.removeTake r = some (k, q1)) :
    Fs.delete q r r2 (Except.error e) rtt =
      (Except.error (ChumError.new ("Deleting " ++ k ++ " failed: " ++ e)),
        q1.insert r2 k) ∧
    S3.delete q r r2 (Except.error e) rtt =
      (Except.error (ChumError.new
        ("Deleting " ++ S3.getPath k ++ " failed: " ++ e)),
        q1.insert r2 k) ∧
    (q1.insert r2 k).items = q1.items ++ [k] ∧
    (q1.insert r2 k).items.Perm q.items ∧
    k ∈ (q1.insert r2 k).items := by
  obtain ⟨_, hg, hitems, _, _⟩ := q.removeTake_elim r k q1 h
  have happend := q.removeTake_insert_append r r2 k q1 hcap h
  have hperm := eraseIdx_append_perm hg
  refine ⟨?_, ?_, happend, ?_, ?_⟩
  · unfold Fs.delete
    rw [h]
  · unfold S3.delete
    rw [h]
  · rw [happend, hitems]
    exact hperm.1
  · rw [happend, hitems]
    exact hperm.2

/-- Witness for `delete_failure_requeues` on the singleton Lru queue
containing the key K. -/
theorem delete_failure_requeues_witness :
    ((Queue.mk ["K"] 10 QueueMode.lru).items.length ≤
        (Queue.mk ["K"] 10 QueueMode.lru).cap ∧
      (Queue.mk ["K"] 10 QueueMode.lru).removeTake 0 =
        some ("K", Queue.mk [] 10 QueueMode.lru)) ∧
    (Fs.delete (Queue.mk ["K"] 10 QueueMode.lru) 0 0
        (Except.error "EIO") 7 =
      (Except.error (ChumError.new ("Deleting " ++ "K" ++ " failed: " ++
        "EIO")), (Queue.mk [] 10 QueueMode.lru).insert 0 "K") ∧
    S3.delete (Queue.mk ["K"] 10 QueueMode.lru) 0 0
        (Except.error "EIO") 7 =
      (Except.error (ChumError.new
        ("Deleting " ++ S3.getPath "K" ++ " failed: " ++ "EIO")),
        (Queue.mk [] 10 QueueMode.lru).insert 0 "K") ∧
    ((Queue.mk [] 10 QueueMode.lru).insert 0 "K").items =
      (Queue.mk [] 10 QueueMode.lru).items ++ ["K"] ∧
    ((Queue.mk [] 10 QueueMode.lru).insert 0 "K").items.Perm
      (Queue.mk ["K"] 10 QueueMode.lru).items ∧
    "K" ∈ ((Queue.mk [] 10 QueueMode.lru).insert 0 "K").items) :=
  ⟨⟨by decide, rfl⟩,
    delete_failure_requeues (Queue.mk ["K"] 10 QueueMode.lru) 0 0 7 "EIO"
      "K" (Queue.mk [] 10 QueueMode.lru) (by decide) rfl⟩

/-- Claim C5 counterexample: the WebDAV backend's `delete` does not take its
key destructively.  On the queue holding only the key K, with the DELETE
transfer succeeding (response code 200), `WebDav::delete` returns the
`Completed` outcome and yet K is still in the queue, so a later `sample()`
still returns it — refuting "for every backend … the key is permanently
gone from the queue". -/
theorem webdav_delete_keeps_key :
    (WebDav.delete (Queue.mk ["K"] 10 QueueMode.lru) 0
        (Except.ok (CurlResp.mk 200 0 3 7))).1 =
      Except.ok (some (WorkerInfo.mk Operation.delete 0 3 7)) ∧
    "K" ∈ (WebDav.delete (Queue.mk ["K"] 10 QueueMode.lru) 0
        (Except.ok (CurlResp.mk 200 0 3 7))).2.items ∧
    (WebDav.delete (Queue.mk ["K"] 10 QueueMode.lru) 0
        (Except.ok (CurlResp.mk 200 0 3 7))).2.get 0 = some "K" := by
  refine ⟨rfl, ?_, rfl⟩
  show "K" ∈ ["K"]
  simp

/-- Claim C5 (amended): the fs and s3 backends' `delete` obtains its target
key by destructive removal, and a successful deletion leaves exactly the
queue after that removal — the key is not re-inserted, one occurrence of it
is gone, and the length dropped by one.  The webdav backend's `delete`
instead samples non-destructively and leaves the queue unchanged in every
branch, including success. -/
theorem delete_success_semantics (q : Queue) (r r2 rtt : Nat) (k : String)
    (q1 : Queue) (h : q.removeTake r = some (k, q1)) :
    Fs.delete q r r2 (Except.ok ()) rtt =
      (Except.ok (some (WorkerInfo.mk Operation.delete 0 0 rtt)), q1) ∧
    S3.delete q r r2 (Except.ok ()) rtt =
      (Except.ok (some (WorkerInfo.mk Operation.delete 0 0 rtt)), q1) ∧
    q1.items.count k + 1 = q.items.count k ∧
    q1.items.length + 1 = q.items.length ∧
    (∀ (q' : Queue) (r' : Nat) (resp : Except ChumError CurlResp),
      (WebDav.delete q' r' resp).2 = q') := by
  obtain ⟨hcount, hlen⟩ := q.removeTake_count r k q1 h
  refine ⟨?_, ?_, hcount, hlen, ?_⟩
  · unfold Fs.delete
    rw [h]
  · unfold S3.delete
    rw [h]
  · intro q' r' resp
    unfold WebDav.delete
    cases hg : q'.get r' with
    | none => rfl
    | some fname =>
        cases resp with
        | error e => rfl
        | ok c =>
            by_cases hc : c.code = 200
            · simp [hc]
            · simp [hc]

/-- Witness for `delete_success_semantics` on the singleton Lru queue. -/
theorem delete_success_semantics_witness :
    (Queue.mk ["K"] 10 QueueMode.lru).removeTake 0 =
      some ("K", Queue.mk [] 10 QueueMode.lru) ∧
    (Fs.delete (Queue.mk ["K"] 10 QueueMode.lru) 0 0 (Except.ok ()) 7 =
      (Except.ok (some (WorkerInfo.mk Operation.delete 0 0 7)),
        Queue.mk [] 10 QueueMode.lru) ∧
    S3.delete (Queue.mk ["K"] 10 QueueMode.lru) 0 0 (Except.ok ()) 7 =
      (Except.ok (some (WorkerInfo.mk Operation.delete 0 0 7)),
        Queue.mk [] 10 QueueMode.lru) ∧
    (Queue.mk [] 10 QueueMode.lru).items.count "K" + 1 =
      (Queue.mk ["K"] 10 QueueMode.lru).items.count "K" ∧
    (Queue.mk [] 10 QueueMode.lru).items.length + 1 =
      (Queue.mk ["K"] 10 QueueMode.lru).items.length ∧
    (∀ (q' : Queue) (r' : Nat) (resp : Except ChumError CurlResp),
      (WebDav.delete q' r' resp).2 = q')) :=
  ⟨rfl,
    delete_success_semantics (Queue.mk ["K"] 10 QueueMode.lru) 0 0 7 "K"
      (Queue.mk [] 10 QueueMode.lru) rfl⟩

/-- Claim C6: on an empty queue, every embedded backend `read` and `delete`
returns `Ok(None)` — the Skipped outcome, never Failed and never Completed
— and leaves the queue exactly as it was (empty). -/
theorem empty_queue_skips (q : Queue) (r r2 rtt : Nat)
    (io : Except ChumError Nat) (rm : Except String Unit)
    (resp : Except ChumError CurlResp) (respd : Except ChumError CurlResp)
    (resp2 : Except String Nat) (h : q.items = []) :
    Fs.read q r io rtt = (Except.ok none, q) ∧
    Fs.delete q r r2 rm rtt = (Except.ok none, q) ∧
    S3.read q r resp2 rtt = (Except.ok none, q) ∧
    S3.delete q r r2 rm rtt = (Except.ok none, q) ∧
    WebDav.read q r resp = (Except.ok none, q) ∧
    WebDav.delete q r respd = (Except.ok none, q) := by
  have hget : ∀ r', q.get r' = none := by
    intro r'
    unfold Queue.get
    rw [if_pos (by rw [h]; rfl)]
  have htake : ∀ r', q.removeTake r' = none := by
    intro r'
    unfold Queue.removeTake
    rw [List.get?_eq_none.mpr (by rw [h]; exact Nat.zero_le _)]
  refine ⟨?_, ?_, ?_, ?_, ?_, ?_⟩
  · unfold Fs.read; rw [hget r]
  · unfold Fs.delete; rw [htake r]
  · unfold S3.read; rw [hget r]
  · unfold S3.delete; rw [htake r]
  · unfold WebDav.read; rw [hget r]
  · unfold WebDav.delete; rw [hget r]

/-- Witness for `empty_queue_skips` on a fresh Rand-mode queue. -/
theorem empty_queue_skips_witness :
    (Queue.new QueueMode.rand 1000).items = [] ∧
    (Fs.read (Queue.new QueueMode.rand 1000) 5 (Except.ok 42) 7 =
      (Except.ok none, Queue.new QueueMode.rand 1000) ∧
    Fs.delete (Queue.new QueueMode.rand 1000) 5 6 (Except.ok ()) 7 =
      (Except.ok none, Queue.new QueueMode.rand 1000) ∧
    S3.read (Queue.new QueueMode.rand 1000) 5 (Except.ok 42) 7 =
      (Except.ok none, Queue.new QueueMode.rand 1000) ∧
    S3.delete (Queue.new QueueMode.rand 1000) 5 6 (Except.ok ()) 7 =
      (Except.ok none, Queue.new QueueMode.rand 1000) ∧
    WebDav.read (Queue.new QueueMode.rand 1000) 5
        (Except.ok (CurlResp.mk 200 0 3 7)) =
      (Except.ok none, Queue.new QueueMode.rand 1000) ∧
    WebDav.delete (Queue.new QueueMode.rand 1000) 5
        (Except.ok (CurlResp.mk 200 0 3 7)) =
      (Except.ok none, Queue.new QueueMode.rand 1000)) :=
  ⟨rfl,
    empty_queue_skips (Queue.new QueueMode.rand 1000) 5 6 7
      (Except.ok 42) (Except.ok ()) (Except.ok (CurlResp.mk 200 0 3 7))
      (Except.ok (CurlResp.mk 200 0 3 7)) (Except.ok 42) rfl⟩

theorem collectStats_cap_zero (total : Nat)
    (ticks : List (List (Except ChumError WorkerInfo))) :
    collectStats 0 total ticks = none := by
  induction ticks generalizing total with
  | nil => rfl
  | cons batch rest ih =>
      simp only [collectStats]
      rw [if_neg (by simp), ih]
      rfl

theorem collectStats_some_iff (cap : Nat) (hcap : 0 < cap)
    (ticks : List (List (Except ChumError WorkerInfo))) :
    ∀ (total i : Nat),
      collectStats cap total ticks = some i ↔
        (i < ticks.length ∧
          cap ≤ (ticks.take (i + 1)).foldl drainBatch total ∧
          ∀ j < i, (ticks.take (j + 1)).foldl drainBatch total < cap) := by
  induction ticks with
  | nil =>
      intro total i
      constructor
      · intro h; exact absurd h (by simp [collectStats])
      · rintro ⟨h, -, -⟩; exact absurd h (by simp)
  | cons batch rest ih =>
      intro total i
      simp only [collectStats]
      by_cases hle : cap ≤ drainBatch total batch
      · rw [if_pos ⟨hcap, hle⟩]
        constructor
        · intro h
          have hi : i = 0 := (Option.some.inj h).symm
          subst hi
          refine ⟨by simp, ?_, by omega⟩
          simpa [List.take_succ_cons, List.foldl_cons] using hle
        · rintro ⟨hilen, hcum, hall⟩
          by_cases hi : i = 0
          · subst hi; rfl
          · exfalso
            have h0 := hall 0 (by omega)
            simp only [List.take_succ_cons, List.take_zero,
              List.foldl_cons, List.foldl_nil] at h0
            omega
      · rw [if_neg (fun hand => hle hand.2)]
        cases i with
        | zero =>
            constructor
            · intro h
              exfalso
              cases hmap : collectStats cap (drainBatch total batch) rest with
              | none => rw [hmap] at h; exact absurd h (by simp)
              | some v => rw [hmap] at h; simp at h
            · rintro ⟨-, hcum, -⟩
              exfalso
              simp only [List.take_succ_cons, List.take_zero,
                List.foldl_cons, List.foldl_nil] at hcum
              omega
        | succ i' =>
            have hmap : ((collectStats cap (drainBatch total batch) rest).map
                (· + 1) = some (i' + 1)) ↔
                collectStats cap (drainBatch total batch) rest = some i' := by
              cases hc : collectStats cap (drainBatch total batch) rest with
              | none => simp
              | some v => simp
            rw [hmap, ih (drainBatch total batch) i']
            constructor
            · rintro ⟨h1, h2, h3⟩
              refine ⟨by simpa using h1, ?_, ?_⟩
              · simpa [List.take_succ_cons, List.foldl_cons] using h2
              · intro j hj
                cases j with
                | zero =>
                    simp only [List.take_succ_cons, List.take_zero,
                      List.foldl_cons, List.foldl_nil]
                    omega
                | succ j' =>
                    have hj' := h3 j' (by omega)
                    simpa [List.take_succ_cons, List.foldl_cons] using hj'
            · rintro ⟨h1, h2, h3⟩
              refine ⟨by simpa using h1, ?_, ?_⟩
              · simpa [List.take_succ_cons, List.foldl_cons] using h2
              · intro j hj
                have hjj := h3 (j + 1) (by omega)
                simpa [List.take_succ_cons, List.foldl_cons] using hjj

theorem drainBatch_eq_sum (batch : List (Except ChumError WorkerInfo)) :
    ∀ total : Nat,
      drainBatch total batch = total +
        (batch.map (fun res =>
          match res with
          | Except.ok wi =>
              if wi.op = Operation.write then wi.size else 0
          | Except.error _ => 0)).sum := by
  induction batch with
  | nil => intro total; simp [drainBatch]
  | cons res rest ih =>
      intro total
      have hstep : drainBatch total (res :: rest) =
          drainBatch
            (if (drainedInfo res).op = Operation.write then
              total + (drainedInfo res).size else total) rest := rfl
      rw [hstep, ih]
      cases res with
      | ok wi =>
          by_cases hw : wi.op = Operation.write
          · simp [drainedInfo, hw, Nat.add_assoc]
          · simp [drainedInfo, hw]
      | error e => simp [drainedInfo]

/-- Claim C2: termination behaviour of the `collect_stats` loop.  With a
positive data cap, the loop returns at tick `i` exactly when `i` is the
first tick at whose boundary the cumulative bytes of Write-kind outcomes
received so far meet or exceed the cap (so it returns there and not
before); with a cap of zero the loop never returns, consuming any finite
schedule without terminating; and the cumulative counter adds exactly the
sizes of `Ok` Write-kind outcomes — `Err` results are drained as zero-size
Error records and non-Write operations contribute nothing. -/
theorem collect_stats_termination (cap : Nat)
    (ticks : List (List (Except ChumError WorkerInfo))) (i : Nat)
    (batch : List (Except ChumError WorkerInfo)) :
    (0 < cap →
      (collectStats cap 0 ticks = some i ↔
        (i < ticks.length ∧ cap ≤ cumWritten (ticks.take (i + 1)) ∧
          ∀ j < i, cumWritten (ticks.take (j + 1)) < cap))) ∧
    collectStats 0 0 ticks = none ∧
    drainBatch 0 batch =
      (batch.map (fun res =>
        match res with
        | Except.ok wi =>
            if wi.op = Operation.write then wi.size else 0
        | Except.error _ => 0)).sum := by
  refine ⟨?_, collectStats_cap_zero 0 ticks, ?_⟩
  · intro hcap
    exact collectStats_some_iff cap hcap ticks 0 i
  · simpa using drainBatch_eq_sum batch 0

/-- Witness for `collect_stats_termination`: with a cap of 10 bytes and two
ticks each delivering one successful 5-byte write, the collector returns at
the second tick (index 1) and not before — the spec's data-cap example. -/
theorem collect_stats_termination_witness :
    0 < 10 ∧
    collectStats 10 0
      [[Except.ok (WorkerInfo.mk Operation.write 5 0 0)],
        [Except.ok (WorkerInfo.mk Operation.write 5 0 0)]] = some 1 :=
  ⟨by decide,
    ((collect_stats_termination 10
      [[Except.ok (WorkerInfo.mk Operation.write 5 0 0)],
        [Except.ok (WorkerInfo.mk Operation.write 5 0 0)]] 1 []).1
      (by decide)).mpr (by decide)⟩

theorem expandTok_of_spec (s : List Char) (l : List String)
    (h : specTokenExpansion s = some l) : expandTok s = Except.ok l := by
  unfold specTokenExpansion at h
  unfold expandTok
  cases hsplit : splitOnChar ':' s with
  | nil => rw [hsplit] at h; exact absurd h (by simp)
  | cons a as =>
      rw [hsplit] at h
      cases as with
      | nil =>
          have h' : some [String.mk a] = some l := h
          obtain rfl : [String.mk a] = l := Option.some.inj h'
          rfl
      | cons b bs =>
          cases bs with
          | nil =>
              have h' : (parseU32 b).map
                  (fun k => List.replicate k (String.mk a)) = some l := h
              cases hw : parseU32 b with
              | none => rw [hw] at h'; exact absurd h' (by simp)
              | some w =>
                  rw [hw] at h'
                  simp only [Option.map_some', Option.some.injEq] at h'
                  subst h'
                  show (match parseU32 b with
                    | some w => Except.ok (List.replicate w (String.mk a))
                    | none =>
                        Except.error (ChumError.new
                          ("failed to parse '" ++ String.mk b ++
                            "' as a number"))) =
                    Except.ok (List.replicate w (String.mk a))
                  rw [hw]
          | cons c cs =>
              exact absurd h (by simp)

theorem expandAll_of_spec (toks : List (List Char))
    (h : ∀ t ∈ toks, (specTokenExpansion t).isSome) :
    expandAll toks =
      Except.ok (toks.flatMap fun t => (specTokenExpansion t).getD []) := by
  induction toks with
  | nil => rfl
  | cons s rest ih =>
      have hs := h s (by simp)
      obtain ⟨l, hl⟩ := Option.isSome_iff_exists.mp hs
      have htok := expandTok_of_spec s l hl
      have hrest := ih (fun t ht => h t (by simp [ht]))
      simp [expandAll, htok, hrest, List.flatMap_cons, hl]

/-- Claim C8: whenever every comma-separated token of the input is of the
spec's form — `N:W` with a parseable weight, or a bare token with no `:` —
`expand_distribution` succeeds and returns, in token order, `W` consecutive
copies of `N` for each `N:W` token and one copy of each bare token.
`specTokenExpansion` restates the spec's per-token rule; the conclusion
concatenates it across the token list. -/
theorem expand_distribution_expands (dstr : String)
    (h : ∀ t ∈ splitOnChar ',' dstr.toList, (specTokenExpansion t).isSome) :
    expand_distribution dstr =
      Except.ok ((splitOnChar ',' dstr.toList).flatMap
        (fun t => (specTokenExpansion t).getD [])) := by
  unfold expand_distribution
  exact expandAll_of_spec (splitOnChar ',' dstr.toList) h

/-- Witness for `expand_distribution_expands`: the spec's example
`"r:3,w:1"` expands to the 4-element list `[r, r, r, w]`. -/
theorem expand_distribution_expands_witness :
    expand_distribution "r:3,w:1" = Except.ok ["r", "r", "r", "w"] := by
  have h := expand_distribution_expands "r:3,w:1" (by decide)
  rw [h]
  rfl

theorem humanRegexMatch_iff (val : String) :
    specHumanForm val ↔ humanRegexMatch val = true := by
  constructor
  · rintro ⟨ds, u, hval, hne, hdig, hu⟩
    unfold humanRegexMatch
    rw [hval, List.dropLast_concat, List.getLast?_concat]
    have h1 : decide (2 ≤ (ds ++ [u]).length) = true := by
      have := List.length_pos.mpr hne
      simp only [List.length_append, List.length_cons, List.length_nil,
        decide_eq_true_iff]
      omega
    have h2 : ds.all Char.isDigit = true := by
      rw [List.all_eq_true]
      intro c hc
      exact hdig c hc
    have h3 : unitChars.contains u = true := List.elem_eq_true_of_mem hu
    show (decide (2 ≤ (ds ++ [u]).length) && ds.all Char.isDigit &&
      unitChars.contains u) = true
    rw [h1, h2, h3]
    rfl
  · intro h
    unfold humanRegexMatch at h
    rw [Bool.and_eq_true, Bool.and_eq_true] at h
    obtain ⟨⟨h1, h2⟩, h3⟩ := h
    rw [decide_eq_true_iff] at h1
    have hne : val.toList ≠ [] := by
      intro hnil
      rw [hnil] at h1
      simp at h1
    refine ⟨val.toList.dropLast, val.toList.getLast hne,
      (List.dropLast_append_getLast hne).symm, ?_, ?_, ?_⟩
    · have hlen : val.toList.dropLast.length = val.toList.length - 1 :=
        List.length_dropLast _
      intro hnil
      rw [hnil] at hlen
      simp only [List.length_nil] at hlen
      omega
    · intro c hc
      exact List.all_eq_true.mp h2 c hc
    · rw [List.getLast?_eq_getLast _ hne] at h3
      exact List.mem_of_elem_eq_true h3

/-- Claim C9: `parse_human` maps `"4k"` to 4096, `"1M"` to 1048576 and the
literal `"0"` to 0; it returns an error on `"4"`, `"4b"` and `"-1k"`; and
on every value that is neither the literal `"0"` nor an unsigned integer
followed by one unit suffix among k, m, g, t (case-insensitive, the form
stated by `specHumanForm`) it returns an error. -/
theorem parse_human_examples :
    parse_human "4k" = RustOutcome.ok 4096 ∧
    parse_human "1M" = RustOutcome.ok 1048576 ∧
    parse_human "0" = RustOutcome.ok 0 ∧
    (parse_human "4").isErr = true ∧
    (parse_human "4b").isErr = true ∧
    (parse_human "-1k").isErr = true ∧
    ∀ val : String, val ≠ "0" → ¬ specHumanForm val →
      (parse_human val).isErr = true := by
  refine ⟨by decide, by decide, by decide, by decide, by decide, by decide,
    ?_⟩
  intro val h0 hs
  have hm : humanRegexMatch val = false := by
    cases hmm : humanRegexMatch val
    · rfl
    · exact absurd ((humanRegexMatch_iff val).mpr hmm) hs
  simp [parse_human, h0, hm, RustOutcome.isErr]

/-- Witness for `parse_human_examples`, exercising the general error clause
on the malformed value `"zz"`. -/
theorem parse_human_examples_witness :
    (parse_human "zz").isErr = true := by
  have hns : ¬ specHumanForm "zz" := by
    intro hs
    have h1 : humanRegexMatch "zz" = true := (humanRegexMatch_iff "zz").mp hs
    exact absurd h1 (by decide)
  exact parse_human_examples.2.2.2.2.2.2 "zz" (by decide) hns

/-- Claim C10: `parse_human` is not total over syntactically well-formed
inputs.  `"10000000000T"` is an unsigned integer with a valid unit suffix,
yet `parse_human` neither returns `Ok` nor `Err` on it: the `u64`
multiplication 10000000000 * 1024^4 overflows 64 bits and the debug-profile
checked multiplication panics — exactly the behaviour the repository pins
in its `test_parse_human_panic` unit test. -/
theorem parse_human_overflow_panics :
    parse_human "10000000000T" =
      RustOutcome.panicked "attempt to multiply with overflow" ∧
    humanRegexMatch "10000000000T" = true := by
  refine ⟨by decide, by decide⟩

/-- Claim C7: the payload-assembly loop shared by the write paths does not
produce the chosen number of bytes on sizes that are not a multiple of the
65536-byte buffer: for the chosen size 5 the assembled payload holds 4
bytes (`&buf[0..(bytes_to_go - 1)]` takes one byte too few), while an exact
multiple such as 65536 does produce 65536 bytes. -/
theorem write_payload_off_by_one :
    (writePayload chumBuf 5).length = 4 ∧
    (writePayload chumBuf 65536).length = 65536 := by
  have hlen : chumBuf.length = 65536 := by
    rw [chumBuf, List.length_replicate]
  have h5 : writePayload chumBuf 5 = [] ++ chumBuf.take 4 := by
    unfold writePayload
    rw [writePayloadLoop]
    rw [if_neg (by omega), if_pos (by rw [hlen]; omega)]
  have hfull : writePayload chumBuf 65536 = [] ++ chumBuf := by
    unfold writePayload
    rw [writePayloadLoop]
    rw [if_neg (by omega), if_neg (by rw [hlen]; omega),
      if_neg (by rw [hlen]; omega), hlen]
    rw [writePayloadLoop]
    norm_num
  have h5len : (writePayload chumBuf 5).length = 4 := by
    rw [h5, List.length_append, List.length_take, hlen]
    norm_num
  refine ⟨h5len, ?_⟩
  rw [hfull, List.length_append, hlen]
  norm_num

end Chum
